import Mathlib

/-!
AX.25 addressing and dial dispatch (`transport/ax25/ax25.go`).

A shallow embedding of the address model (`Address`, `AX25Addr`,
`AddressFromString`) and of the dial dispatcher (`Dialer.DialURL`), together
with the parts of Go's `strings`, `strconv` and `fmt` packages they call.

Go `string` values are embedded as lists of characters (`Str`).  Every
character the code inspects (`-`, `+`, the digits, the blank) is ASCII, so a
split or a scan over characters agrees with the same operation over bytes.
-/

namespace ax25

/-- A Go `string`. -/
abbrev Str := List Char

/-! ## Package `strings` -/

/-- The `strings.Index(s, sep)` of a one-byte separator: the position of its
first occurrence; `none` stands for Go's `-1`. -/
def Index : Str → Char → Option Nat
  | [], _ => none
  | c :: cs, sep => if c = sep then some 0 else (Index cs sep).map (· + 1)

/-- The `strings.Count(s, sep)` of a one-byte separator. -/
def Count : Str → Char → Nat
  | [], _ => 0
  | c :: cs, sep => (if c = sep then 1 else 0) + Count cs sep

/-- The loop of `strings.genSplit`: `n` is the number of cuts still allowed
(`i < n` in the source), each round cuts at the next separator
(`a[i] = s[:m]`, `s = s[m+len(sep):]`), and the rest is the last part. -/
def genSplitLoop (sep : Char) : Nat → Str → List Str
  | 0, s => [s]
  | n + 1, s =>
    match Index s sep with
    | none => [s]
    | some m => s.take m :: genSplitLoop sep n (s.drop (m + 1))

/-- The `strings.Split(s, sep)` of a one-byte separator: `genSplit` with
`n = Count(s, sep) + 1` parts, that is `Count(s, sep)` cuts. -/
def Split (s : Str) (sep : Char) : List Str :=
  genSplitLoop sep (Count s sep) s

/-- The `strings.Join(elems, sep)`: nothing for no element, else the first
element followed by `sep ++ s` for each further element `s`. -/
def Join (elems : List Str) (sep : Str) : Str :=
  match elems with
  | [] => []
  | e :: rest => rest.foldl (fun b s => b ++ sep ++ s) e

/-! ## Package `strconv` -/

/-- The error kinds of `strconv.NumError` (`ErrSyntax`, `ErrRange`) and the
invalid-base error. -/
inductive NumError where
  | ErrSyntax
  | ErrRange
  | ErrBase
deriving DecidableEq, Repr

/-- Largest `uint64`. -/
def maxUint64 : Nat := 2 ^ 64 - 1

/-- The digit value `ParseUint` gives a byte: `c - '0'` for a decimal digit,
`lower(c) - 'a' + 10` for a letter (`lower(c) = c | 0x20`), nothing
otherwise. -/
def digitOf (c : Char) : Option Nat :=
  if 48 ≤ c.toNat ∧ c.toNat ≤ 57 then some (c.toNat - 48)
  else if 97 ≤ (c.toNat ||| 32) ∧ (c.toNat ||| 32) ≤ 122 then some ((c.toNat ||| 32) - 97 + 10)
  else none

/-- The digit loop of `strconv.ParseUint`, with the `uint64` accumulator `n`. -/
def parseUintLoop (base cutoff maxVal : Nat) : Str → Nat → Nat × Option NumError
  | [], n => (n, none)
  | c :: cs, n =>
    match digitOf c with
    | none => (0, some NumError.ErrSyntax)
    | some d =>
      if d ≥ base then (0, some NumError.ErrSyntax)
      else if n ≥ cutoff then (maxVal, some NumError.ErrRange)
      else
        let n0 := n * base % 2 ^ 64
        let n1 := (n0 + d) % 2 ^ 64
        if n1 < n0 ∨ n1 > maxVal then (maxVal, some NumError.ErrRange)
        else parseUintLoop base cutoff maxVal cs n1

/-- The `strconv.ParseUint(s, base, bitSize)` for an explicit base in 2..36
and an explicit bit size in 1..64 (base 0 and bit size 0 select defaults the
callers here resolve themselves).  Go returns the pair `(value, err)`. -/
def ParseUint (s : Str) (base bitSize : Nat) : Nat × Option NumError :=
  if s = [] then (0, some NumError.ErrSyntax)
  else if base < 2 ∨ 36 < base then (0, some NumError.ErrBase)
  else
    parseUintLoop base (maxUint64 / base + 1) ((2 ^ bitSize - 1) % 2 ^ 64) s 0

/-- The `strconv.ParseInt(s, base, bitSize)`: an optional sign, then
`ParseUint`, then the range check against `1 << (bitSize-1)`. -/
def ParseInt (s : Str) (base bitSize : Nat) : Int × Option NumError :=
  match s with
  | [] => (0, some NumError.ErrSyntax)
  | c :: cs =>
    let neg : Bool := c = '-'
    let r := ParseUint (if c = '+' ∨ c = '-' then cs else c :: cs) base bitSize
    if r.2 ≠ none ∧ r.2 ≠ some NumError.ErrRange then (0, r.2)
    else
      let cutoff : Nat := 2 ^ (bitSize - 1)
      if neg = false ∧ r.1 ≥ cutoff then ((cutoff : Int) - 1, some NumError.ErrRange)
      else if neg = true ∧ r.1 > cutoff then (-(cutoff : Int), some NumError.ErrRange)
      else (if neg then -(r.1 : Int) else (r.1 : Int), none)

/-! ## Package `fmt` -/

/-- The verb `%d` of `fmt` on an unsigned value: its decimal digits, most
significant first. -/
def fmtD (n : Nat) : Str := Nat.toDigits 10 n

/-! ## The address model -/

/-- The `Address` struct: a callsign and an SSID of type `uint8`. -/
structure Address where
  Call : Str
  SSID : Fin 256
deriving DecidableEq

/-- The conversion `uint8(i)` of an `int64`. -/
def uint8 (i : Int) : Fin 256 := ⟨(i % 256).toNat, by omega⟩

/-- The function `AddressFromString`.  The index expressions `parts[0]` and
`parts[1]` fail (`none`) when the index is out of range, as they do in Go. -/
def AddressFromString (str : Str) : Option Address :=
  let parts := Split str '-'
  match parts[0]? with
  | none => none
  | some call =>
    let addr : Address := { Call := call, SSID := 0 }
    if parts.length > 1 then
      match parts[1]? with
      | none => none
      | some p1 =>
        let r := ParseInt p1 10 32
        if r.2 = none ∧ r.1 ≥ 0 ∧ r.1 ≤ 255 then
          some { addr with SSID := uint8 r.1 }
        else some addr
    else some addr

/-- The method `Address.String`: `fmt.Sprintf("%s-%d", a.Call, a.SSID)` for a
positive SSID, the callsign alone otherwise. -/
def Address.String (a : Address) : Str :=
  if a.SSID > 0 then a.Call ++ "-".toList ++ fmtD a.SSID.val
  else a.Call

/-- The interface `addr`: the station address and the digipeater path. -/
structure addr where
  Address : Address
  Digis : List ax25.Address

/-- The struct `AX25Addr`, which embeds an `addr` (its two methods are
promoted). -/
structure AX25Addr extends addr

/-- The method `AX25Addr.String`: the buffer receives the station, then
`" via"` when there is a digipeater, then `" %s"` for each digipeater. -/
def AX25Addr.String (a : AX25Addr) : Str :=
  let buf : Str := a.Address.String
  let buf : Str := if a.Digis.length > 0 then buf ++ " via".toList else buf
  a.Digis.foldl (fun b digi => b ++ " ".toList ++ digi.String) buf

/-! ## The dial dispatcher -/

/-- The fast-path loop of `strconv.Atoi`: `ch -= '0'`, a syntax error
(`none`) when `ch > 9`, else `n = n*10 + int(ch)`.  The fast path runs on at
most 18 digits (9 when `int` has 32 bits), so `n` stays below `10^18`
(`10^9`) and the `int` arithmetic never wraps. -/
def atoiLoop : Str → Int → Option Int
  | [], n => some n
  | ch :: cs, n =>
    if 48 ≤ ch.toNat ∧ ch.toNat ≤ 57 then atoiLoop cs (n * 10 + ((ch.toNat - 48 : Nat) : Int))
    else none

/-- The `strconv.Atoi(s)` on a platform whose `int` has `intSize` bits: the
fast path for short texts, `ParseInt(s, 10, 0)` otherwise (bit size 0 is
`intSize`).  Go returns the pair `(value, err)`, the value being meaningful
also when `err` is a range error. -/
def Atoi (intSize : Nat) (s : Str) : Int × Option NumError :=
  if (intSize = 32 ∧ 0 < s.length ∧ s.length < 10) ∨
      (intSize = 64 ∧ 0 < s.length ∧ s.length < 19) then
    match s with
    | [] => (0, some NumError.ErrSyntax)
    | c :: cs =>
      let signed : Bool := c = '-' ∨ c = '+'
      let body := if signed then cs else c :: cs
      if signed = true ∧ body.length < 1 then (0, some NumError.ErrSyntax)
      else
        match atoiLoop body 0 with
        | none => (0, some NumError.ErrSyntax)
        | some n => (if c = '-' then -n else n, none)
  else ParseInt s 10 intSize

/-- The `url.Userinfo` a URL may carry. -/
structure Userinfo where
  username : Str

/-- The method `(*Userinfo).Username`, which accepts a nil receiver. -/
def Userinfo.Username : Option Userinfo → Str
  | none => []
  | some u => u.username

/-- The `url.Values` of a URL: a map from key to list of values (no entry is
the empty list). -/
abbrev Values := Str → List Str

/-- The method `Values.Get`: the first value of the key, `""` without one. -/
def Values.Get (v : Values) (key : Str) : Str :=
  match v key with
  | [] => []
  | x :: _ => x

/-- The fields of `transport.URL` that `DialURL` reads. -/
structure URL where
  Scheme : Str
  Host : Str
  User : Option Userinfo
  Target : Str
  Digis : List Str
  Params : Values

/-- The struct `Dialer`; `Timeout` is a `time.Duration`. -/
structure Dialer where
  Timeout : Int

/-- What `DialURL` uses and this file does not declare: the platform's
`int` size, `transport.ErrUnsupportedScheme`, the type `Baudrate` with its
conversion from `int`, `NewConfig`, and the two dial constructors.  A dial
constructor acts on the outside world (`World`) and returns Go's pair
`(net.Conn, error)`. -/
structure Deps where
  Conn : Type
  Err : Type
  Baud : Type
  Config : Type
  Notifier : Type
  World : Type
  intSize : Nat
  ErrUnsupportedScheme : Err
  Baudrate : Int → Baud
  NewConfig : Baud → Config
  DialAX25Timeout : Str → Str → Str → Int → World → (Option Conn × Option Err) × World
  DialKenwood : Str → Str → Str → Config → Option Notifier → World →
    (Option Conn × Option Err) × World

/-- The method `Dialer.DialURL` (on a non-nil `url`), run in the world `w`. -/
def Dialer.DialURL (D : Deps) (d : Dialer) (url : URL) (w : D.World) :
    (Option D.Conn × Option D.Err) × D.World :=
  let target : Str :=
    if url.Digis.length > 0 then url.Target ++ " via ".toList ++ Join url.Digis " ".toList
    else url.Target
  if url.Scheme = "ax25".toList then
    D.DialAX25Timeout url.Host (Userinfo.Username url.User) target d.Timeout w
  else if url.Scheme = "serial-tnc".toList then
    let i := (Atoi D.intSize (url.Params.Get "hbaud".toList)).1
    let baudrate := if i > 0 then D.Baudrate i else D.Baudrate 1200
    D.DialKenwood url.Host (Userinfo.Username url.User) target (D.NewConfig baudrate) none w
  else ((none, some D.ErrUnsupportedScheme), w)

/-! ## The connection -/

/-- The struct `Conn`: the embedded `io.ReadWriteCloser` (a stream of type
`S`) and the two addresses. -/
structure Conn (S : Type) where
  ReadWriteCloser : S
  localAddr : AX25Addr
  remoteAddr : AX25Addr

/-- The method `(*Conn).ok`: the receiver, a pointer, is not nil. -/
def Conn.ok {S : Type} (c : Option (Conn S)) : Bool :=
  c.isSome

/-- The method `(*Conn).LocalAddr`.  The result is a `net.Addr`, which is nil
(`some none`) or holds an `AX25Addr`; the outer `none` is the failure of
reading a field through a nil pointer. -/
def Conn.LocalAddr {S : Type} (c : Option (Conn S)) : Option (Option AX25Addr) :=
  if Conn.ok c = false then some none
  else
    match c with
    | none => none
    | some conn => some (some conn.localAddr)

/-- The method `(*Conn).RemoteAddr`, with the result type of `LocalAddr`. -/
def Conn.RemoteAddr {S : Type} (c : Option (Conn S)) : Option (Option AX25Addr) :=
  if Conn.ok c = false then some none
  else
    match c with
    | none => none
    | some conn => some (some conn.remoteAddr)

/-- The type `errors.errorString`, whose `Error()` is its text. -/
structure errorString where
  s : Str
deriving DecidableEq

/-- The function `errors.New`. -/
def errors.New (text : Str) : errorString :=
  ⟨text⟩

/-- The method `(*Conn).SetDeadline` for a `time.Time` of type `T`: the
`error` returned (`none` would be nil) and the receiver after the call. -/
def Conn.SetDeadline {S T : Type} (c : Option (Conn S)) (_t : T) :
    Option errorString × Option (Conn S) :=
  (some (errors.New "SetDeadline not implemented".toList), c)

/-- The method `(*Conn).SetReadDeadline`. -/
def Conn.SetReadDeadline {S T : Type} (c : Option (Conn S)) (_t : T) :
    Option errorString × Option (Conn S) :=
  (some (errors.New "SetReadDeadline not implemented".toList), c)

/-- The method `(*Conn).SetWriteDeadline`. -/
def Conn.SetWriteDeadline {S T : Type} (c : Option (Conn S)) (_t : T) :
    Option errorString × Option (Conn S) :=
  (some (errors.New "SetWriteDeadline not implemented".toList), c)

/-! ## Reference notions the statements compare the code with -/

/-- A text is the decimal numeral of `n`: digits only (so no sign), at least
one, no leading zero unless it is `0` itself, and its value is `n`. -/
def IsDecimalNumeral (ds : Str) (n : Nat) : Prop :=
  ds ≠ [] ∧ (∀ c ∈ ds, c.isDigit = true) ∧ (ds.head? = some '0' → ds = ['0']) ∧
    ds.foldl (fun v c => v * 10 + (c.toNat - 48)) 0 = n

instance (ds : Str) (n : Nat) : Decidable (IsDecimalNumeral ds n) := by
  unfold IsDecimalNumeral
  infer_instance

/-- The text `p` occurs in `s` exactly once, with `x` before it and `y`
after it: `s` is `x ++ p ++ y`, and in no other way some text, `p`, and some
text. -/
def OccursOnceBetween (p s x y : Str) : Prop :=
  s = x ++ p ++ y ∧ ∀ x1 y1 : Str, s = x1 ++ p ++ y1 → x1 = x ∧ y1 = y

/-- The SSID `AddressFromString` gives an address whose second part is `t`:
the value of `t` when `ParseInt` accepts it with a value in 0..255, else 0. -/
def ssidOfPart (t : Str) : Fin 256 :=
  if (ParseInt t 10 32).2 = none ∧ (ParseInt t 10 32).1 ≥ 0 ∧ (ParseInt t 10 32).1 ≤ 255 then
    uint8 (ParseInt t 10 32).1
  else 0

/-- A recorded call of a dial constructor, with the arguments it received
(the last argument of `DialKenwood` is whether a notifier was given). -/
inductive RecCall where
  | DialAX25Timeout (port call target : Str) (timeout : Int)
  | DialKenwood (port call target : Str) (baud : Int) (notifier : Bool)
deriving DecidableEq

/-- The result of a dial in the recording environment. -/
abbrev RecResult := (Option RecCall × Option String) × Nat

/-- A dial environment that records each constructor call: the connection
returned is the record of the call, and the world counts the calls.
`Baudrate` is the conversion to the package's `type Baudrate int`, and the
configuration keeps the baud rate. -/
@[reducible]
def recDeps (intSize : Nat) : Deps where
  Conn := RecCall
  Err := String
  Baud := Int
  Config := Int
  Notifier := Unit
  World := Nat
  intSize := intSize
  ErrUnsupportedScheme := "unsupported scheme"
  Baudrate := fun i => i
  NewConfig := fun b => b
  DialAX25Timeout := fun port call target timeout w =>
    ((some (RecCall.DialAX25Timeout port call target timeout), none), w + 1)
  DialKenwood := fun port call target cfg n w =>
    ((some (RecCall.DialKenwood port call target cfg n.isSome), none), w + 1)

/-- A dial environment whose constructors fail: each returns no connection
and its own error, and the world counts the calls. -/
@[reducible]
def failDeps (intSize : Nat) : Deps where
  Conn := RecCall
  Err := String
  Baud := Int
  Config := Int
  Notifier := Unit
  World := Nat
  intSize := intSize
  ErrUnsupportedScheme := "unsupported scheme"
  Baudrate := fun i => i
  NewConfig := fun b => b
  DialAX25Timeout := fun _ _ _ _ w => ((none, some "ax25: connection timed out"), w + 1)
  DialKenwood := fun _ _ _ _ _ w => ((none, some "kenwood: no answer"), w + 1)

/-- The method `DialURL` run in the failing environment, from a world with
no call made. -/
def failDial (intSize : Nat) (d : Dialer) (url : URL) : RecResult :=
  Dialer.DialURL (failDeps intSize) d url (0 : Nat)

/-- The method `DialURL` run in the recording environment, from a world with
no call made. -/
def recDial (intSize : Nat) (d : Dialer) (url : URL) : RecResult :=
  Dialer.DialURL (recDeps intSize) d url (0 : Nat)

/-- A URL with the given scheme, target, digipeaters and `hbaud` values. -/
def mkURL (scheme target : String) (digis : List String) (hbaud : List String) : URL where
  Scheme := scheme.toList
  Host := "port1".toList
  User := some ⟨"N0CALL".toList⟩
  Target := target.toList
  Digis := digis.map String.toList
  Params := fun k => if k = "hbaud".toList then hbaud.map String.toList else []

/-! ## Splitting -/

theorem Count_not_mem {sep : Char} : ∀ {s : Str}, sep ∉ s → Count s sep = 0
  | [], _ => rfl
  | c :: cs, h => by
    have hc : c ≠ sep := fun e => h (e ▸ List.mem_cons_self _ _)
    have hcs : sep ∉ cs := fun m => h (List.mem_cons_of_mem _ m)
    simp [Count, hc, Count_not_mem hcs]

theorem Index_not_mem {sep : Char} : ∀ {s : Str}, sep ∉ s → Index s sep = none
  | [], _ => rfl
  | c :: cs, h => by
    have hc : c ≠ sep := fun e => h (e ▸ List.mem_cons_self _ _)
    have hcs : sep ∉ cs := fun m => h (List.mem_cons_of_mem _ m)
    simp [Index, hc, Index_not_mem hcs]

theorem Count_append {sep : Char} (r : Str) :
    ∀ {p : Str}, sep ∉ p → Count (p ++ sep :: r) sep = Count r sep + 1
  | [], _ => by simp [Count, Nat.add_comm]
  | c :: cs, h => by
    have hc : c ≠ sep := fun e => h (e ▸ List.mem_cons_self _ _)
    have hcs : sep ∉ cs := fun m => h (List.mem_cons_of_mem _ m)
    simp [Count, hc, Count_append r hcs]

theorem Index_append {sep : Char} (r : Str) :
    ∀ {p : Str}, sep ∉ p → Index (p ++ sep :: r) sep = some p.length
  | [], _ => by simp [Index]
  | c :: cs, h => by
    have hc : c ≠ sep := fun e => h (e ▸ List.mem_cons_self _ _)
    have hcs : sep ∉ cs := fun m => h (List.mem_cons_of_mem _ m)
    simp [Index, hc, Index_append r hcs]

/-- A text without the separator is its own single part. -/
theorem Split_not_mem {sep : Char} {s : Str} (h : sep ∉ s) : Split s sep = [s] := by
  unfold Split
  rw [Count_not_mem h]
  rfl

/-- The first part ends at the first separator, and the rest is split on. -/
theorem Split_append {sep : Char} {p : Str} (r : Str) (h : sep ∉ p) :
    Split (p ++ sep :: r) sep = p :: Split r sep := by
  unfold Split
  rw [Count_append r h]
  simp only [genSplitLoop, Index_append r h]
  simp

/-- Every text with the separator is a separator-free text, the separator,
and a rest. -/
theorem split_at_first (sep : Char) : ∀ (s : Str), sep ∈ s →
    s = s.takeWhile (· != sep) ++ sep :: (s.dropWhile (· != sep)).drop 1
  | [], h => by simp at h
  | c :: cs, h => by
    by_cases hc : c = sep
    · subst hc
      simp
    · have hm : sep ∈ cs := by
        rcases List.mem_cons.mp h with e | m
        · exact absurd e.symm hc
        · exact m
      have ih := split_at_first sep cs hm
      simp only [List.takeWhile_cons, List.dropWhile_cons, bne_iff_ne, ne_eq, hc, not_false_eq_true,
        decide_True, ite_true, List.cons_append]
      rw [← ih]

theorem not_mem_takeWhile (sep : Char) (s : Str) : sep ∉ s.takeWhile (· != sep) := by
  intro h
  have := List.mem_takeWhile_imp h
  simp at this

theorem takeWhile_not_mem {sep : Char} {s : Str} (h : sep ∉ s) : s.takeWhile (· != sep) = s := by
  rw [List.takeWhile_eq_self_iff]
  intro c hc
  simp only [bne_iff_ne, ne_eq]
  intro e
  exact h (e ▸ hc)

theorem takeWhile_append_sep {sep : Char} {p : Str} (r : Str) (h : sep ∉ p) :
    (p ++ sep :: r).takeWhile (· != sep) = p := by
  induction p with
  | nil => simp
  | cons c cs ih =>
    have hc : c ≠ sep := fun e => h (e ▸ List.mem_cons_self _ _)
    have hcs : sep ∉ cs := fun m => h (List.mem_cons_of_mem _ m)
    simp [hc, ih hcs]

/-- The parts of a text: the text before the first separator, then (when
there is a separator) the parts of what follows it. -/
theorem Split_eq (sep : Char) (s : Str) :
    Split s sep = s.takeWhile (· != sep) ::
      (if sep ∈ s then Split ((s.dropWhile (· != sep)).drop 1) sep else []) := by
  by_cases h : sep ∈ s
  · rw [if_pos h]
    conv_lhs => rw [split_at_first sep s h]
    exact Split_append _ (not_mem_takeWhile sep s)
  · rw [if_neg h, Split_not_mem h, takeWhile_not_mem h]


/-- The address `AddressFromString` returns, in closed form: the callsign is
the text before the first dash, and the SSID comes from the text between the
first dash and the second (or the end). -/
theorem AddressFromString_eq (s : Str) :
    AddressFromString s = some
      { Call := s.takeWhile (· != '-'),
        SSID := if '-' ∈ s then
            ssidOfPart (((s.dropWhile (· != '-')).drop 1).takeWhile (· != '-'))
          else 0 } := by
  unfold AddressFromString
  by_cases h : '-' ∈ s
  · rw [Split_eq '-' s, if_pos h, Split_eq '-' ((s.dropWhile (· != '-')).drop 1)]
    simp only [if_pos h, ssidOfPart]
    simp only [List.getElem?_cons_zero, List.length_cons, List.getElem?_cons_succ]
    rw [if_pos (by omega)]
    split <;> rfl
  · rw [Split_not_mem h, takeWhile_not_mem h]
    simp [h]

/-! ## Decimal numerals -/

theorem digitChar_facts {d : Nat} (h : d < 10) :
    digitOf (Nat.digitChar d) = some d ∧ (Nat.digitChar d).isDigit = true ∧
      (Nat.digitChar d).toNat = d + 48 := by
  interval_cases d <;> decide

theorem toDigitsCore_acc (fuel : Nat) : ∀ (n : Nat) (acc : Str), n < fuel →
    Nat.toDigitsCore 10 fuel n acc = Nat.toDigitsCore 10 (n + 1) n [] ++ acc := by
  induction fuel using Nat.strong_induction_on with
  | _ fuel ih =>
    intro n acc hn
    obtain ⟨f, rfl⟩ : ∃ f, fuel = f + 1 := ⟨fuel - 1, by omega⟩
    simp only [Nat.toDigitsCore]
    by_cases h0 : n / 10 = 0
    · simp [h0]
    · simp only [h0, if_false]
      rw [ih f (by omega) (n / 10) _ (by omega)]
      by_cases hn0 : n = 0
      · subst hn0
        simp at h0
      · rw [ih n (by omega) (n / 10) [Nat.digitChar (n % 10)] (by omega)]
        simp

theorem fmtD_lt {n : Nat} (h : n < 10) : fmtD n = [Nat.digitChar n] := by
  have h0 : n / 10 = 0 := by omega
  simp [fmtD, Nat.toDigits, Nat.toDigitsCore, h0, Nat.mod_eq_of_lt h]

theorem fmtD_ge {n : Nat} (h : 10 ≤ n) :
    fmtD n = fmtD (n / 10) ++ [Nat.digitChar (n % 10)] := by
  have h0 : n / 10 ≠ 0 := by omega
  simp only [fmtD, Nat.toDigits, Nat.toDigitsCore, h0, if_false]
  exact toDigitsCore_acc n (n / 10) _ (by omega)

/-- The `%d` rendering is a run of decimal digit characters. -/
theorem fmtD_digits (n : Nat) : ∀ c ∈ fmtD n, ∃ d, d < 10 ∧ c = Nat.digitChar d := by
  induction n using Nat.strong_induction_on with
  | _ n ih =>
    intro c hc
    by_cases h : n < 10
    · rw [fmtD_lt h] at hc
      exact ⟨n, h, by simpa using hc⟩
    · rw [fmtD_ge (by omega)] at hc
      rcases List.mem_append.mp hc with hc | hc
      · exact ih (n / 10) (by omega) c hc
      · exact ⟨n % 10, by omega, by simpa using hc⟩

/-- The `%d` rendering starts with a digit character. -/
theorem fmtD_cons (n : Nat) : ∃ d cs, d < 10 ∧ fmtD n = Nat.digitChar d :: cs := by
  induction n using Nat.strong_induction_on with
  | _ n ih =>
    by_cases h : n < 10
    · exact ⟨n, [], h, fmtD_lt h⟩
    · obtain ⟨d, cs, hd, e⟩ := ih (n / 10) (by omega)
      exact ⟨d, cs ++ [Nat.digitChar (n % 10)], hd, by rw [fmtD_ge (by omega), e]; rfl⟩

theorem fmtD_no_dash (n : Nat) : '-' ∉ fmtD n := by
  intro h
  obtain ⟨d, hd, e⟩ := fmtD_digits n _ h
  have := (digitChar_facts hd).2.2
  rw [← e] at this
  have h45 : ('-' : Char).toNat = 45 := by decide
  omega

/-- The `%d` rendering of `n` is the decimal numeral of `n`. -/
theorem fmtD_isDecimalNumeral (n : Nat) : IsDecimalNumeral (fmtD n) n := by
  induction n using Nat.strong_induction_on with
  | _ n ih =>
    by_cases h : n < 10
    · rw [fmtD_lt h]
      refine ⟨by simp, ?_, ?_, ?_⟩
      · intro c hc
        rw [List.mem_singleton.mp hc]
        exact (digitChar_facts h).2.1
      · intro e
        simpa using e
      · simp [(digitChar_facts h).2.2]
    · obtain ⟨hne, hdig, hz, hv⟩ := ih (n / 10) (by omega)
      rw [fmtD_ge (by omega)]
      refine ⟨by simp, ?_, ?_, ?_⟩
      · intro c hc
        rcases List.mem_append.mp hc with hc | hc
        · exact hdig c hc
        · rw [List.mem_singleton.mp hc]
          exact (digitChar_facts (Nat.mod_lt n (by decide))).2.1
      · intro e
        exfalso
        obtain ⟨c, cs, hcs⟩ := List.exists_cons_of_ne_nil hne
        rw [hcs] at e hz hv
        have hc : c = '0' := by simpa using e
        have h1 := hz (by simp [hc])
        have hcs0 : cs = [] := (List.cons.inj h1).2
        rw [hcs0, hc] at hv
        have h10 : n / 10 = 0 := by simpa using hv.symm
        omega
      · rw [List.foldl_append, hv]
        simp only [List.foldl_cons, List.foldl_nil,
          (digitChar_facts (Nat.mod_lt n (by decide))).2.2]
        omega

/-! ## Parsing a decimal numeral -/

theorem maxUint64_eq : maxUint64 = 18446744073709551615 := by decide

theorem parseUintLoop_step {maxVal m d : Nat} (hmax : maxVal ≤ maxUint64) (hd : d < 10)
    (h : m * 10 + d ≤ maxVal) (rest : Str) :
    parseUintLoop 10 (maxUint64 / 10 + 1) maxVal (Nat.digitChar d :: rest) m =
      parseUintLoop 10 (maxUint64 / 10 + 1) maxVal rest (m * 10 + d) := by
  rw [maxUint64_eq] at hmax ⊢
  have h1 : ¬ d ≥ 10 := by omega
  have h2 : ¬ m ≥ 18446744073709551615 / 10 + 1 := by omega
  have h3 : m * 10 % 2 ^ 64 = m * 10 := Nat.mod_eq_of_lt (by omega)
  have h4 : (m * 10 + d) % 2 ^ 64 = m * 10 + d := Nat.mod_eq_of_lt (by omega)
  have h5 : ¬ (m * 10 + d < m * 10 ∨ m * 10 + d > maxVal) := by omega
  simp only [parseUintLoop, (digitChar_facts hd).1, h1, h2, h3, h4, h5, if_false]

theorem parseUintLoop_fmtD {maxVal : Nat} (hmax : maxVal ≤ maxUint64) (n : Nat) :
    n ≤ maxVal → ∀ rest : Str,
      parseUintLoop 10 (maxUint64 / 10 + 1) maxVal (fmtD n ++ rest) 0 =
        parseUintLoop 10 (maxUint64 / 10 + 1) maxVal rest n := by
  induction n using Nat.strong_induction_on with
  | _ n ih =>
    intro hn rest
    by_cases h : n < 10
    · rw [fmtD_lt h]
      have := parseUintLoop_step hmax h (m := 0) (by omega) rest
      simpa using this
    · rw [fmtD_ge (by omega), List.append_assoc, ih (n / 10) (by omega) (by omega)]
      have := parseUintLoop_step hmax (Nat.mod_lt n (by decide : 0 < 10)) (m := n / 10)
        (by omega) rest
      rw [Nat.div_add_mod' n 10] at this
      simpa using this

theorem ParseUint_fmtD {bitSize n : Nat} (hb : bitSize ≤ 64) (hn : n < 2 ^ bitSize) :
    ParseUint (fmtD n) 10 bitSize = (n, none) := by
  obtain ⟨d, cs, -, e⟩ := fmtD_cons n
  have hne : fmtD n ≠ [] := by rw [e]; simp
  have hp : 2 ^ bitSize ≤ 2 ^ 64 := Nat.pow_le_pow_right (by decide) hb
  have hm : (2 ^ bitSize - 1) % 2 ^ 64 = 2 ^ bitSize - 1 := Nat.mod_eq_of_lt (by omega)
  have hmax : 2 ^ bitSize - 1 ≤ maxUint64 := by rw [maxUint64_eq]; omega
  have := parseUintLoop_fmtD hmax n (by omega) []
  simp only [List.append_nil] at this
  simp only [ParseUint, hne, if_false, hm, this]
  simp [parseUintLoop]

theorem digitChar_not_sign {d : Nat} (hd : d < 10) :
    Nat.digitChar d ≠ '+' ∧ Nat.digitChar d ≠ '-' := by
  interval_cases d <;> decide

/-- The `ParseInt` of the decimal numeral of a value the bit size holds is
that value, without error. -/
theorem ParseInt_fmtD {bitSize n : Nat} (hb1 : 1 ≤ bitSize) (hb : bitSize ≤ 64)
    (hn : n < 2 ^ (bitSize - 1)) : ParseInt (fmtD n) 10 bitSize = ((n : Int), none) := by
  have hlt : n < 2 ^ bitSize :=
    lt_of_lt_of_le hn (Nat.pow_le_pow_right (by decide) (by omega))
  have hu := ParseUint_fmtD hb hlt
  obtain ⟨d, cs, hd, e⟩ := fmtD_cons n
  rw [e] at hu ⊢
  obtain ⟨hplus, hminus⟩ := digitChar_not_sign hd
  have h1 : ¬ n ≥ 2 ^ (bitSize - 1) := by omega
  simp [ParseInt, hplus, hminus, hu, h1]

theorem atoiLoop_step {d : Nat} (hd : d < 10) (m : Int) (rest : Str) :
    atoiLoop (Nat.digitChar d :: rest) m = atoiLoop rest (m * 10 + (d : Int)) := by
  have h48 := (digitChar_facts hd).2.2
  rw [atoiLoop, if_pos ⟨by omega, by omega⟩, h48, Nat.add_sub_cancel]

theorem atoiLoop_fmtD (n : Nat) : ∀ rest : Str,
    atoiLoop (fmtD n ++ rest) 0 = atoiLoop rest (n : Int) := by
  induction n using Nat.strong_induction_on with
  | _ n ih =>
    intro rest
    by_cases h : n < 10
    · rw [fmtD_lt h, List.singleton_append, atoiLoop_step h]
      simp
    · have hm : n % 10 < 10 := Nat.mod_lt n (by decide)
      rw [fmtD_ge (by omega), List.append_assoc, ih (n / 10) (by omega), List.singleton_append,
        atoiLoop_step hm]
      congr 1
      omega

/-- The `Atoi` of the decimal numeral of a value an `int` holds is that
value, without error, on the fast path and on the slow one. -/
theorem Atoi_fmtD {intSize n : Nat} (hi : intSize = 32 ∨ intSize = 64)
    (hn : n < 2 ^ (intSize - 1)) : Atoi intSize (fmtD n) = ((n : Int), none) := by
  unfold Atoi
  split
  · obtain ⟨d, cs, hd, e⟩ := fmtD_cons n
    obtain ⟨hplus, hminus⟩ := digitChar_not_sign hd
    have hl := atoiLoop_fmtD n []
    simp only [List.append_nil, atoiLoop] at hl
    rw [e] at hl ⊢
    simp [hplus, hminus, hl]
  · exact ParseInt_fmtD (by omega) (by omega) hn

/-! ## Parsing an address -/

theorem dropWhile_append_sep {sep : Char} {p : Str} (r : Str) (h : sep ∉ p) :
    (p ++ sep :: r).dropWhile (· != sep) = sep :: r := by
  induction p with
  | nil => simp
  | cons c cs ih =>
    have hc : c ≠ sep := fun e => h (e ▸ List.mem_cons_self _ _)
    have hcs : sep ∉ cs := fun m => h (List.mem_cons_of_mem _ m)
    simp [hc, ih hcs]

/-- The address of a text with a dash-free callsign in front of a dash. -/
theorem AddressFromString_append {p : Str} (r : Str) (h : '-' ∉ p) :
    AddressFromString (p ++ '-' :: r) =
      some { Call := p, SSID := ssidOfPart (r.takeWhile (· != '-')) } := by
  rw [AddressFromString_eq, takeWhile_append_sep r h, dropWhile_append_sep r h]
  simp

/-- The address of a dash-free text. -/
theorem AddressFromString_not_mem {s : Str} (h : '-' ∉ s) :
    AddressFromString s = some { Call := s, SSID := 0 } := by
  rw [AddressFromString_eq, takeWhile_not_mem h, if_neg h]

theorem repr_toList (n : Nat) : (Nat.repr n).toList = fmtD n := rfl

theorem uint8_natCast {n : Nat} (h : n < 256) : uint8 (n : Int) = ⟨n, h⟩ := by
  apply Fin.ext
  simp only [uint8]
  omega

/-- The SSID read back from the rendering of an SSID. -/
theorem ssidOfPart_fmtD (n : Fin 256) : ssidOfPart (fmtD n.val) = n := by
  have hp := @ParseInt_fmtD 32 n.val (by decide) (by decide)
    (lt_trans n.isLt (by decide))
  have h255 : (n.val : Int) ≤ 255 := by have := n.isLt; omega
  simp only [ssidOfPart, hp, true_and, ge_iff_le, Int.natCast_nonneg, h255, and_self, if_true]
  exact uint8_natCast n.isLt

/-! ## What an accepted number looks like -/

theorem digitOf_dash : digitOf '-' = none := by decide

theorem parseUintLoop_ok_no_dash (base cutoff maxVal : Nat) : ∀ (s : Str) (n : Nat),
    (parseUintLoop base cutoff maxVal s n).2 = none → '-' ∉ s
  | [], _, _ => by simp
  | c :: cs, n, h => by
    rw [parseUintLoop] at h
    cases hd : digitOf c with
    | none => simp [hd] at h
    | some d =>
      simp only [hd] at h
      split at h
      · simp at h
      · split at h
        · simp at h
        · split at h
          · simp at h
          · have ih := parseUintLoop_ok_no_dash base cutoff maxVal cs _ h
            have hc : c ≠ '-' := by
              intro e
              rw [e, digitOf_dash] at hd
              exact Option.noConfusion hd
            intro hm
            rcases List.mem_cons.mp hm with e | m
            · exact hc e.symm
            · exact ih m

theorem parseUintLoop_range (base cutoff maxVal : Nat) : ∀ (s : Str) (n : Nat),
    (parseUintLoop base cutoff maxVal s n).2 = some NumError.ErrRange →
      (parseUintLoop base cutoff maxVal s n).1 = maxVal
  | [], _, h => by simp [parseUintLoop] at h
  | c :: cs, n, h => by
    rw [parseUintLoop] at h ⊢
    cases hd : digitOf c with
    | none => simp [hd] at h
    | some d =>
      simp only [hd] at h ⊢
      split
      · rename_i h1
        simp [h1] at h
      · rename_i h1
        simp only [h1, if_false] at h
        split
        · rfl
        · rename_i h2
          simp only [h2, if_false] at h
          split
          · rfl
          · rename_i h3
            simp only [h3, if_false] at h
            exact parseUintLoop_range base cutoff maxVal cs _ h

theorem ParseUint_ok_no_dash {s : Str} {base bitSize : Nat}
    (h : (ParseUint s base bitSize).2 = none) : '-' ∉ s := by
  unfold ParseUint at h
  split at h
  · simp at h
  · split at h
    · simp at h
    · exact parseUintLoop_ok_no_dash _ _ _ s 0 h

theorem ParseUint_range {s : Str} {base bitSize : Nat}
    (h : (ParseUint s base bitSize).2 = some NumError.ErrRange) :
    (ParseUint s base bitSize).1 = (2 ^ bitSize - 1) % 2 ^ 64 := by
  unfold ParseUint at h ⊢
  split
  · rename_i h1
    simp [h1] at h
  · rename_i h1
    simp only [h1, if_false] at h
    split
    · rename_i h2
      simp [h2] at h
    · rename_i h2
      simp only [h2, if_false] at h
      exact parseUintLoop_range _ _ _ s 0 h

theorem ParseInt_dash (cs : Str) (base bitSize : Nat) :
    ParseInt ('-' :: cs) base bitSize =
      if (ParseUint cs base bitSize).2 ≠ none ∧
          (ParseUint cs base bitSize).2 ≠ some NumError.ErrRange then
        (0, (ParseUint cs base bitSize).2)
      else if (ParseUint cs base bitSize).1 > 2 ^ (bitSize - 1) then
        (-((2 ^ (bitSize - 1) : Nat) : Int), some NumError.ErrRange)
      else (-((ParseUint cs base bitSize).1 : Int), none) := by
  simp [ParseInt]

theorem ParseInt_no_dash {c : Char} (hc : c ≠ '-') (cs : Str) (base bitSize : Nat) :
    ParseInt (c :: cs) base bitSize =
      if (ParseUint (if c = '+' then cs else c :: cs) base bitSize).2 ≠ none ∧
          (ParseUint (if c = '+' then cs else c :: cs) base bitSize).2 ≠
            some NumError.ErrRange then
        (0, (ParseUint (if c = '+' then cs else c :: cs) base bitSize).2)
      else if (ParseUint (if c = '+' then cs else c :: cs) base bitSize).1 ≥ 2 ^ (bitSize - 1) then
        (((2 ^ (bitSize - 1) : Nat) : Int) - 1, some NumError.ErrRange)
      else (((ParseUint (if c = '+' then cs else c :: cs) base bitSize).1 : Int), none) := by
  simp [ParseInt, hc]

/-- A text `ParseInt` accepts (32 bits) with a value that is not negative
has a dash at most in front, and then its value is 0: cutting it at its
first dash does not change the SSID read from it. -/
theorem ssidOfPart_takeWhile {t : Str} (hok : (ParseInt t 10 32).2 = none)
    (hv : 0 ≤ (ParseInt t 10 32).1) :
    ssidOfPart (t.takeWhile (· != '-')) = ssidOfPart t := by
  cases t with
  | nil => rfl
  | cons c cs =>
    by_cases hc : c = '-'
    · subst hc
      have h0 : (ParseInt ('-' :: cs) 10 32).1 = 0 := by
        rw [ParseInt_dash] at hok hv ⊢
        split_ifs at hok hv ⊢ <;> simp_all
      have e1 : ssidOfPart ('-' :: cs) = 0 := by
        simp only [ssidOfPart, hok, h0]
        decide
      have e2 : (('-' : Char) :: cs).takeWhile (· != '-') = [] := by simp
      rw [e1, e2]
      decide
    · have hbody : (ParseUint (if c = '+' then cs else c :: cs) 10 32).2 = none := by
        rw [ParseInt_no_dash hc] at hok
        by_contra hne
        by_cases hr : (ParseUint (if c = '+' then cs else c :: cs) 10 32).2 =
            some NumError.ErrRange
        · have hmax := ParseUint_range hr
          simp only [hr, hmax] at hok
          revert hok
          decide
        · simp [hne, hr] at hok
      have hnd := ParseUint_ok_no_dash hbody
      have hcs : '-' ∉ c :: cs := by
        by_cases hp : c = '+'
        · simp only [hp, if_true] at hnd
          intro hm
          rcases List.mem_cons.mp hm with e | m
          · exact hc e.symm
          · exact hnd m
        · simpa [hp] using hnd
      rw [takeWhile_not_mem hcs]

theorem foldl_sep (sep : Str) : ∀ (xs : List Str) (b : Str),
    xs.foldl (fun b s => b ++ sep ++ s) b = b ++ (xs.map (fun s => sep ++ s)).flatten
  | [], b => by simp
  | x :: xs, b => by
    rw [List.foldl_cons, foldl_sep sep xs]
    simp

theorem intercalate_cons (sep : Str) : ∀ (xs : List Str) (x : Str),
    sep.intercalate (x :: xs) = x ++ (xs.map (fun s => sep ++ s)).flatten
  | [], x => by simp [List.intercalate, List.intersperse]
  | y :: ys, x => by
    have ih := intercalate_cons sep ys y
    simp only [List.intercalate, List.intersperse, List.flatten_cons] at ih ⊢
    rw [ih]
    simp

/-- The builder loop of `Join` yields the elements with the separator between
each two of them. -/
theorem Join_eq_intercalate (xs : List Str) (sep : Str) : Join xs sep = sep.intercalate xs := by
  cases xs with
  | nil => rfl
  | cons x xs => rw [intercalate_cons]; exact foldl_sep sep xs x

/-- The local `target` of `DialURL`, in closed form. -/
theorem dial_target_eq (target : Str) (digis : List Str) :
    (if digis.length > 0 then target ++ " via ".toList ++ Join digis " ".toList else target) =
      (if digis = [] then target
        else target ++ " via ".toList ++ " ".toList.intercalate digis) := by
  rw [Join_eq_intercalate]
  cases digis <;> simp

/-! ## The claims -/

/-- C1: `Address.String` is the callsign alone when the SSID is 0 (an SSID
of 0 is never rendered), and otherwise the callsign, a dash and the decimal
numeral of the SSID, a value in 1..255: digits only (no sign), no leading
zero, with the SSID as its value. -/
theorem C1_Address_String (a : Address) :
    (a.SSID = 0 ∧ a.String = a.Call) ∨
      (1 ≤ a.SSID.val ∧ a.SSID.val ≤ 255 ∧
        ∃ ds : Str, a.String = a.Call ++ "-".toList ++ ds ∧
          ds = (Nat.repr a.SSID.val).toList ∧ IsDecimalNumeral ds a.SSID.val ∧
          ds.head? ≠ some '0') := by
  by_cases h : a.SSID = 0
  · left
    refine ⟨h, ?_⟩
    simp [Address.String, h]
  · right
    have hpos : 0 < a.SSID := Fin.pos_iff_ne_zero.mpr h
    have hv : 1 ≤ a.SSID.val := hpos
    have hnum := fmtD_isDecimalNumeral a.SSID.val
    refine ⟨hv, by have := a.SSID.isLt; omega, fmtD a.SSID.val, ?_, rfl, hnum, ?_⟩
    · simp [Address.String, hpos]
    · intro h0
      have h1 := hnum.2.2.1 h0
      have h2 := hnum.2.2.2
      rw [h1] at h2
      have h3 : a.SSID.val = 0 := by simpa using h2.symm
      omega

/-- C2: the callsign `AddressFromString` returns is the text before the
first dash of the input, all of the input when it has no dash, character for
character: nothing is normalised and nothing is rejected. -/
theorem C2_Call_is_text_before_first_dash (s : Str) :
    ∃ a : Address, AddressFromString s = some a ∧
      a.Call = s.takeWhile (· != '-') ∧
      ('-' ∉ s → a.Call = s) ∧
      (∀ p r : Str, s = p ++ '-' :: r → '-' ∉ p → a.Call = p) := by
  refine ⟨_, AddressFromString_eq s, rfl, ?_, ?_⟩
  · intro h
    exact takeWhile_not_mem h
  · intro p r e hp
    subst e
    exact takeWhile_append_sep r hp

/-- C2 at a text in lower case with characters no callsign has: the
callsign is returned as written. -/
theorem C2_Call_is_text_before_first_dash_witness :
    ∃ a : Address, AddressFromString "la5 nta!-3-x".toList = some a ∧
      a.Call = "la5 nta!".toList := by
  obtain ⟨a, ha, -, -, h⟩ := C2_Call_is_text_before_first_dash "la5 nta!-3-x".toList
  exact ⟨a, ha, h "la5 nta!".toList "3-x".toList (by decide) (by decide)⟩

/-- C3 as stated fails: in `A-1-2` everything after the first dash is `1-2`,
which is no base-10 integer, and yet the address has SSID 1: the code splits
on every dash and reads the part between the first dash and the second. -/
theorem C3_counterexample :
    '-' ∈ "A-1-2".toList ∧
      ("A-1-2".toList.dropWhile (· != '-')).drop 1 = "1-2".toList ∧
      ParseInt "1-2".toList 10 32 = (0, some NumError.ErrSyntax) ∧
      AddressFromString "A-1-2".toList = some { Call := "A".toList, SSID := 1 } := by
  decide

/-- C3, amended: for a text with a dash, take as second portion the text
between the first dash and the second (up to the end without a second
dash).  When `ParseInt` rejects that portion, or its value is outside
0..255, `AddressFromString` returns an address (no failure) with the
callsign before the first dash and SSID 0. -/
theorem C3_bad_SSID_defaults_to_zero (s : Str) (hs : '-' ∈ s)
    (hbad : (ParseInt (((s.dropWhile (· != '-')).drop 1).takeWhile (· != '-')) 10 32).2 ≠ none ∨
      (ParseInt (((s.dropWhile (· != '-')).drop 1).takeWhile (· != '-')) 10 32).1 < 0 ∨
      255 < (ParseInt (((s.dropWhile (· != '-')).drop 1).takeWhile (· != '-')) 10 32).1) :
    AddressFromString s = some { Call := s.takeWhile (· != '-'), SSID := 0 } := by
  rw [AddressFromString_eq, if_pos hs]
  have h : ¬ ((ParseInt (((s.dropWhile (· != '-')).drop 1).takeWhile (· != '-')) 10 32).2 = none ∧
      (ParseInt (((s.dropWhile (· != '-')).drop 1).takeWhile (· != '-')) 10 32).1 ≥ 0 ∧
      (ParseInt (((s.dropWhile (· != '-')).drop 1).takeWhile (· != '-')) 10 32).1 ≤ 255) := by
    rintro ⟨h1, h2, h3⟩
    rcases hbad with h | h | h
    · exact h h1
    · omega
    · omega
  simp only [ssidOfPart, h, if_false]

/-- C3 amended, at `N0CALL-256-1`, whose second portion `256` is out of range. -/
theorem C3_bad_SSID_defaults_to_zero_witness :
    '-' ∈ "N0CALL-256-1".toList ∧
      ParseInt "256".toList 10 32 = (256, none) ∧
      AddressFromString "N0CALL-256-1".toList = some { Call := "N0CALL".toList, SSID := 0 } :=
  ⟨by decide, by decide,
    C3_bad_SSID_defaults_to_zero "N0CALL-256-1".toList (by decide) (by decide)⟩

/-- C4: a dash-free callsign followed by a dash and the decimal numeral of
an `n` in 0..255 parses to that callsign with SSID `n`, and the callsign
alone parses to SSID 0. -/
theorem C4_parse_canonical_text (c : Str) (n : Fin 256) (hc : '-' ∉ c) :
    AddressFromString (c ++ "-".toList ++ (Nat.repr n.val).toList) =
        some { Call := c, SSID := n } ∧
      AddressFromString c = some { Call := c, SSID := 0 } := by
  refine ⟨?_, AddressFromString_not_mem hc⟩
  have e : c ++ "-".toList ++ (Nat.repr n.val).toList = c ++ '-' :: fmtD n.val := by
    rw [repr_toList]
    simp
  rw [e, AddressFromString_append _ hc, takeWhile_not_mem (fmtD_no_dash n.val),
    ssidOfPart_fmtD]

/-- C4 at the callsign `N0CALL`: `N0CALL-7` parses to `N0CALL` with SSID 7
and `N0CALL` to `N0CALL` with SSID 0. -/
theorem C4_parse_canonical_text_witness :
    '-' ∉ "N0CALL".toList ∧
      AddressFromString "N0CALL-7".toList = some { Call := "N0CALL".toList, SSID := 7 } ∧
      AddressFromString "N0CALL".toList = some { Call := "N0CALL".toList, SSID := 0 } :=
  ⟨by decide, (C4_parse_canonical_text "N0CALL".toList 7 (by decide)).1,
    (C4_parse_canonical_text "N0CALL".toList 7 (by decide)).2⟩

/-- C5 as stated fails: in `N0CALL-07` the SSID portion `07` is a base-10
integer text with value 7, and parsing then rendering gives `N0CALL-7`, not
the original text. -/
theorem C5_counterexample :
    '-' ∉ "N0CALL".toList ∧
      ParseInt "07".toList 10 32 = (7, none) ∧
      (AddressFromString "N0CALL-07".toList).map Address.String = some "N0CALL-7".toList ∧
      "N0CALL-7".toList ≠ "N0CALL-07".toList := by
  decide

/-- C5, amended: for a dash-free callsign `c` and an SSID portion `t` that
`ParseInt` accepts with a value `v` in 0..255, parsing `c-t` and rendering
gives `c` when `v = 0` and `c`, a dash and the decimal numeral of `v` when
`v > 0`; that is the original text when `t` is that numeral (no sign, no
leading zeros). -/
theorem C5_parse_then_String (c t : Str) (v : Nat) (hc : '-' ∉ c) (hv : v ≤ 255)
    (ht : ParseInt t 10 32 = ((v : Int), none)) :
    (AddressFromString (c ++ "-".toList ++ t)).map Address.String =
        some (if v = 0 then c else c ++ "-".toList ++ (Nat.repr v).toList) ∧
      (t = (Nat.repr v).toList → 0 < v →
        (AddressFromString (c ++ "-".toList ++ t)).map Address.String =
          some (c ++ "-".toList ++ t)) := by
  have hlt : v < 256 := by omega
  have hs : ssidOfPart (t.takeWhile (· != '-')) = ⟨v, hlt⟩ := by
    rw [ssidOfPart_takeWhile (by rw [ht]) (by rw [ht]; exact Int.natCast_nonneg v)]
    have h255 : (v : Int) ≤ 255 := by omega
    simp only [ssidOfPart, ht, true_and, ge_iff_le, Int.natCast_nonneg, h255, and_self, if_true]
    exact uint8_natCast hlt
  have e : c ++ "-".toList ++ t = c ++ '-' :: t := by simp
  have main : (AddressFromString (c ++ "-".toList ++ t)).map Address.String =
      some (if v = 0 then c else c ++ "-".toList ++ (Nat.repr v).toList) := by
    rw [e, AddressFromString_append t hc, hs]
    by_cases h0 : v = 0
    · subst h0
      simp [Address.String]
    · have hpos : (0 : Fin 256) < ⟨v, hlt⟩ := by
        rw [Fin.lt_def]
        exact Nat.pos_of_ne_zero h0
      simp [Address.String, hpos, h0]
      rfl
  refine ⟨main, ?_⟩
  intro ht2 hpos
  rw [main, if_neg (by omega), ht2]

/-- C5 amended, at `N0CALL-+007`: the rendering is `N0CALL-7`. -/
theorem C5_parse_then_String_witness :
    '-' ∉ "N0CALL".toList ∧ ParseInt "+007".toList 10 32 = (7, none) ∧
      (AddressFromString "N0CALL-+007".toList).map Address.String = some "N0CALL-7".toList :=
  ⟨by decide, by decide,
    (C5_parse_then_String "N0CALL".toList "+007".toList 7 (by decide) (by decide) (by decide)).1⟩

/-- C6: `AX25Addr.String` is the station's canonical form when there is no
digipeater, and otherwise the station's form, `" via "`, and the canonical
forms of the digipeaters, each once, in the given order, with one blank
between each two. -/
theorem C6_AX25Addr_String (a : AX25Addr) :
    a.String =
      if a.Digis = [] then a.Address.String
      else a.Address.String ++ " via ".toList ++
        " ".toList.intercalate (a.Digis.map Address.String) := by
  unfold AX25Addr.String
  cases hd : a.Digis with
  | nil => simp
  | cons d ds =>
    have h := foldl_sep " ".toList ((d :: ds).map Address.String)
      (a.Address.String ++ " via".toList)
    rw [List.foldl_map] at h
    simp only [List.length_cons, Nat.zero_lt_succ, if_true, h, List.map_cons, intercalate_cons]
    simp

/-- C7: the target specification `DialURL` hands to the constructor of
either scheme is the URL's target when it has no digipeater, and otherwise
the target, `" via "` and the digipeaters joined by single blanks in the
given order. -/
theorem C7_target_specification (D : Deps) (d : Dialer) (url : URL) (w : D.World) :
    (url.Scheme = "ax25".toList →
        Dialer.DialURL D d url w =
          D.DialAX25Timeout url.Host (Userinfo.Username url.User)
            (if url.Digis = [] then url.Target
              else url.Target ++ " via ".toList ++ " ".toList.intercalate url.Digis)
            d.Timeout w) ∧
      (url.Scheme = "serial-tnc".toList →
        ∃ cfg : D.Config, Dialer.DialURL D d url w =
          D.DialKenwood url.Host (Userinfo.Username url.User)
            (if url.Digis = [] then url.Target
              else url.Target ++ " via ".toList ++ " ".toList.intercalate url.Digis)
            cfg none w) := by
  have ht := dial_target_eq url.Target url.Digis
  constructor
  · intro hs
    simp only [Dialer.DialURL, hs, if_true, ht]
  · intro hs
    have hne : ¬ "serial-tnc".toList = "ax25".toList := by decide
    refine ⟨D.NewConfig (if (Atoi D.intSize (url.Params.Get "hbaud".toList)).1 > 0 then
      D.Baudrate (Atoi D.intSize (url.Params.Get "hbaud".toList)).1 else D.Baudrate 1200), ?_⟩
    simp only [Dialer.DialURL, hs, hne, if_true, if_false, ht]

/-- C7 at the target `W1AW` with the digipeaters `RELAY` and `WIDE1-1`: the
recorded constructor call receives `W1AW via RELAY WIDE1-1`. -/
theorem C7_target_specification_witness :
    recDial 64 ⟨45⟩ (mkURL "ax25" "W1AW" ["RELAY", "WIDE1-1"] []) =
      ((some (RecCall.DialAX25Timeout "port1".toList "N0CALL".toList
        "W1AW via RELAY WIDE1-1".toList 45), none), 1) :=
  (C7_target_specification (recDeps 64) ⟨45⟩ (mkURL "ax25" "W1AW" ["RELAY", "WIDE1-1"] [])
    (0 : Nat)).1 (by decide)

/-- C8: for a scheme that is neither `ax25` nor `serial-tnc` (compared
character for character) `DialURL` returns no connection and the
unsupported-scheme error, and leaves the world as it was whatever the two
constructors would do: neither is called. -/
theorem C8_unsupported_scheme (D : Deps) (d : Dialer) (url : URL) (w : D.World)
    (h1 : url.Scheme ≠ "ax25".toList) (h2 : url.Scheme ≠ "serial-tnc".toList) :
    Dialer.DialURL D d url w = ((none, some D.ErrUnsupportedScheme), w) := by
  simp only [Dialer.DialURL, h1, h2, if_false]

/-- C8 at the scheme `AX25` in upper case: no call is recorded. -/
theorem C8_unsupported_scheme_witness :
    recDial 64 ⟨45⟩ (mkURL "AX25" "W1AW" ["RELAY"] ["9600"]) =
      ((none, some "unsupported scheme"), 0) :=
  C8_unsupported_scheme (recDeps 64) ⟨45⟩ (mkURL "AX25" "W1AW" ["RELAY"] ["9600"]) (0 : Nat)
    (by decide) (by decide)

/-- C9 fails at a digit string too large for the integer parser: `Atoi`
returns the largest `int` together with its range error, `DialURL` drops the
error and keeps the value, and `DialKenwood` is called with that baud rate
(`2^63 - 1` with 64 bits, `2^31 - 1` with 32), not with 1200. -/
theorem C9_oversized_hbaud :
    Atoi 64 "99999999999999999999".toList = (9223372036854775807, some NumError.ErrRange) ∧
      recDial 64 ⟨45⟩ (mkURL "serial-tnc" "W1AW" [] ["99999999999999999999"]) =
        ((some (RecCall.DialKenwood "port1".toList "N0CALL".toList "W1AW".toList
          9223372036854775807 false), none), 1) ∧
      recDial 32 ⟨45⟩ (mkURL "serial-tnc" "W1AW" [] ["99999999999999999999"]) =
        ((some (RecCall.DialKenwood "port1".toList "N0CALL".toList "W1AW".toList
          2147483647 false), none), 1) := by
  decide

/-- The cases of C9 the code does handle: without `hbaud`, and with `0`,
`-5`, `abc`, or a negative number out of range, the recorded baud rate is
1200 (64-bit and 32-bit `int`). -/
theorem serial_tnc_default_baud :
    ∀ hbaud ∈ [[], ["0"], ["-5"], ["abc"], [""], ["-99999999999999999999"], ["12x"]],
      ∀ intSize ∈ [32, 64],
        recDial intSize ⟨45⟩ (mkURL "serial-tnc" "W1AW" [] hbaud) =
          ((some (RecCall.DialKenwood "port1".toList "N0CALL".toList "W1AW".toList 1200 false),
            none), 1) := by
  decide

/-- C10 as stated fails for a positive integer no `int` holds: with
`hbaud=100000000000000000000` (the decimal text of `10^20`) the recorded
baud rate is `2^63 - 1`. -/
theorem C10_counterexample :
    (Nat.repr (10 ^ 20)).toList = "100000000000000000000".toList ∧
      recDial 64 ⟨45⟩ (mkURL "serial-tnc" "W1AW" [] ["100000000000000000000"]) =
        ((some (RecCall.DialKenwood "port1".toList "N0CALL".toList "W1AW".toList
          9223372036854775807 false), none), 1) ∧
      (9223372036854775807 : Int) ≠ 10 ^ 20 := by
  decide

/-- C10, amended: for the scheme `serial-tnc` and an `hbaud` that is the
decimal text of a positive `n` that an `int` holds (`n < 2^(intSize-1)`),
`DialURL` returns the result of `DialKenwood` on the host, the credential's
username, the target specification, `NewConfig(Baudrate(n))` and no
notifier, unchanged. -/
theorem C10_serial_tnc_hbaud (D : Deps) (d : Dialer) (url : URL) (w : D.World) (n : Nat)
    (hi : D.intSize = 32 ∨ D.intSize = 64) (hs : url.Scheme = "serial-tnc".toList)
    (hpos : 0 < n) (hn : n < 2 ^ (D.intSize - 1))
    (hb : url.Params.Get "hbaud".toList = (Nat.repr n).toList) :
    Dialer.DialURL D d url w =
      D.DialKenwood url.Host (Userinfo.Username url.User)
        (if url.Digis = [] then url.Target
          else url.Target ++ " via ".toList ++ " ".toList.intercalate url.Digis)
        (D.NewConfig (D.Baudrate (n : Int))) none w := by
  have hne : ¬ "serial-tnc".toList = "ax25".toList := by decide
  have ht := dial_target_eq url.Target url.Digis
  have hpos2 : (0 : Int) < (n : Int) := by exact_mod_cast hpos
  simp only [Dialer.DialURL, hs, hne, if_false, ht, hb, repr_toList, Atoi_fmtD hi hn, hpos2,
    gt_iff_lt, if_true]

/-- C10 amended, at `hbaud=9600` on a 64-bit `int`: the recorded call has
baud rate 9600. -/
theorem C10_serial_tnc_hbaud_witness :
    recDial 64 ⟨45⟩ (mkURL "serial-tnc" "W1AW" ["RELAY"] ["9600"]) =
      ((some (RecCall.DialKenwood "port1".toList "N0CALL".toList "W1AW via RELAY".toList
        9600 false), none), 1) :=
  C10_serial_tnc_hbaud (recDeps 64) ⟨45⟩ (mkURL "serial-tnc" "W1AW" ["RELAY"] ["9600"]) (0 : Nat)
    9600 (by decide) (by decide) (by decide) (by decide) (by decide)

/-! ## Rendering then parsing -/

/-- The closed form of `AX25Addr.String`. -/
theorem AX25Addr_String_eq (a : AX25Addr) :
    a.String =
      if a.Digis = [] then a.Address.String
      else a.Address.String ++ " via ".toList ++
        " ".toList.intercalate (a.Digis.map Address.String) := by
  unfold AX25Addr.String
  cases hd : a.Digis with
  | nil => simp
  | cons d ds =>
    have h := foldl_sep " ".toList ((d :: ds).map Address.String)
      (a.Address.String ++ " via".toList)
    rw [List.foldl_map] at h
    simp only [List.length_cons, Nat.zero_lt_succ, if_true, h, List.map_cons, intercalate_cons]
    simp

/-- Parsing the rendering of an address with a dash-free callsign gives the
address back. -/
theorem AddressFromString_String (a : Address) (h : '-' ∉ a.Call) :
    AddressFromString a.String = some a := by
  by_cases h0 : a.SSID = 0
  · have e : a.String = a.Call := by simp [Address.String, h0]
    rw [e, AddressFromString_not_mem h]
    cases a
    simp_all
  · have hpos : 0 < a.SSID := Fin.pos_iff_ne_zero.mpr h0
    have e : a.String = a.Call ++ '-' :: fmtD a.SSID.val := by simp [Address.String, hpos]
    rw [e, AddressFromString_append _ h, takeWhile_not_mem (fmtD_no_dash a.SSID.val),
      ssidOfPart_fmtD]

/-- C11: for the scheme `ax25` and every dialer, `DialURL` returns what
`DialAX25Timeout` returns on the host, the credential's username, the target
specification and the dialer's timeout: the same connection, the same error
and the world after that one call, with nothing retried or wrapped. -/
theorem C11_ax25_delegates (D : Deps) (d : Dialer) (url : URL) (w : D.World)
    (hs : url.Scheme = "ax25".toList) :
    Dialer.DialURL D d url w =
      D.DialAX25Timeout url.Host (Userinfo.Username url.User)
        (if url.Digis = [] then url.Target
          else url.Target ++ " via ".toList ++ " ".toList.intercalate url.Digis)
        d.Timeout w := by
  have ht := dial_target_eq url.Target url.Digis
  simp only [Dialer.DialURL, hs, if_true, ht]

/-- C11 with a constructor that fails: its error comes back unchanged, no
connection is returned, and the constructor was called once. -/
theorem C11_ax25_delegates_witness :
    failDial 64 ⟨45⟩ (mkURL "ax25" "W1AW" ["RELAY"] []) =
      ((none, some "ax25: connection timed out"), 1) :=
  C11_ax25_delegates (failDeps 64) ⟨45⟩ (mkURL "ax25" "W1AW" ["RELAY"] []) (0 : Nat) (by decide)

/-- C12: on a nil receiver `LocalAddr` and `RemoteAddr` return the nil
address without failing, and on a present connection they return the stored
`localAddr` and `remoteAddr`, each its own, as a non-nil address. -/
theorem C12_addr_accessors (S : Type) :
    Conn.LocalAddr (none : Option (Conn S)) = some none ∧
      Conn.RemoteAddr (none : Option (Conn S)) = some none ∧
      ∀ conn : Conn S,
        Conn.LocalAddr (some conn) = some (some conn.localAddr) ∧
          Conn.RemoteAddr (some conn) = some (some conn.remoteAddr) := by
  refine ⟨rfl, rfl, ?_⟩
  intro conn
  exact ⟨rfl, rfl⟩

/-- C13: on every receiver, nil or not, and for every time value, the three
deadline setters return a non-nil error whose text is the setter's name
followed by ` not implemented`; the three texts differ from each other, and
the receiver is left as it was. -/
theorem C13_deadlines_not_implemented (S T : Type) (c : Option (Conn S)) (t : T) :
    (Conn.SetDeadline c t).1 = some ⟨"SetDeadline not implemented".toList⟩ ∧
      (Conn.SetReadDeadline c t).1 = some ⟨"SetReadDeadline not implemented".toList⟩ ∧
      (Conn.SetWriteDeadline c t).1 = some ⟨"SetWriteDeadline not implemented".toList⟩ ∧
      (Conn.SetDeadline c t).1 ≠ (Conn.SetReadDeadline c t).1 ∧
      (Conn.SetDeadline c t).1 ≠ (Conn.SetWriteDeadline c t).1 ∧
      (Conn.SetReadDeadline c t).1 ≠ (Conn.SetWriteDeadline c t).1 ∧
      (Conn.SetDeadline c t).2 = c ∧ (Conn.SetReadDeadline c t).2 = c ∧
      (Conn.SetWriteDeadline c t).2 = c := by
  refine ⟨rfl, rfl, rfl, ?_, ?_, ?_, rfl, rfl, rfl⟩ <;>
    simp only [Conn.SetDeadline, Conn.SetReadDeadline, Conn.SetWriteDeadline, errors.New] <;>
    decide

/-- C16: parsing the rendering of an address with a dash-free callsign gives
that address back, so rendering is one-to-one on such addresses; and for an
address whose callsign has a dash (`A-B`, SSID 0) it gives another address. -/
theorem C16_parse_inverts_String :
    (∀ a : Address, '-' ∉ a.Call → AddressFromString a.String = some a) ∧
      (∀ a b : Address, '-' ∉ a.Call → '-' ∉ b.Call → a.String = b.String → a = b) ∧
      ∃ a : Address, '-' ∈ a.Call ∧ AddressFromString a.String ≠ some a := by
  refine ⟨AddressFromString_String, ?_, ⟨⟨"A-B".toList, 0⟩, by decide, by decide⟩⟩
  intro a b ha hb e
  have h1 := AddressFromString_String a ha
  rw [e, AddressFromString_String b hb] at h1
  exact (Option.some.inj h1).symm

/-- C16 at the address `N0CALL` with SSID 255. -/
theorem C16_parse_inverts_String_witness :
    AddressFromString (Address.String ⟨"N0CALL".toList, 255⟩) = some ⟨"N0CALL".toList, 255⟩ :=
  C16_parse_inverts_String.1 ⟨"N0CALL".toList, 255⟩ (by decide)

/-- C17: the callsign of the address parsed from any text has no dash, and
parsing the rendering of that address gives the same address again. -/
theorem C17_canonicalisation_idempotent (s : Str) :
    ∃ a : Address, AddressFromString s = some a ∧ '-' ∉ a.Call ∧
      AddressFromString a.String = AddressFromString s := by
  have h := AddressFromString_eq s
  refine ⟨_, h, not_mem_takeWhile '-' s, ?_⟩
  rw [h]
  exact AddressFromString_String _ (not_mem_takeWhile '-' s)

/-- C18: when the URL's target is the rendering of a station address and its
digipeaters are the renderings of a digipeater list, the target
specification `DialURL` hands to the constructor of either scheme is
`AX25Addr.String` of that station with that list. -/
theorem C18_target_is_AX25Addr_String (D : Deps) (d : Dialer) (url : URL) (w : D.World)
    (a : Address) (ds : List Address) (ht : url.Target = a.String)
    (hd : url.Digis = ds.map Address.String) :
    (url.Scheme = "ax25".toList →
        Dialer.DialURL D d url w =
          D.DialAX25Timeout url.Host (Userinfo.Username url.User)
            (AX25Addr.String ⟨⟨a, ds⟩⟩) d.Timeout w) ∧
      (url.Scheme = "serial-tnc".toList →
        ∃ cfg : D.Config, Dialer.DialURL D d url w =
          D.DialKenwood url.Host (Userinfo.Username url.User)
            (AX25Addr.String ⟨⟨a, ds⟩⟩) cfg none w) := by
  have e : (if url.Digis.length > 0 then
        url.Target ++ " via ".toList ++ Join url.Digis " ".toList else url.Target) =
      AX25Addr.String ⟨⟨a, ds⟩⟩ := by
    rw [dial_target_eq, AX25Addr_String_eq, ht, hd]
    cases ds <;> simp
  constructor
  · intro hs
    simp only [Dialer.DialURL, hs, if_true, e]
  · intro hs
    have hne : ¬ "serial-tnc".toList = "ax25".toList := by decide
    refine ⟨D.NewConfig (if (Atoi D.intSize (url.Params.Get "hbaud".toList)).1 > 0 then
      D.Baudrate (Atoi D.intSize (url.Params.Get "hbaud".toList)).1 else D.Baudrate 1200), ?_⟩
    simp only [Dialer.DialURL, hs, hne, if_true, if_false, e]

/-- C18 at the station `W1AW` with the digipeaters `RELAY` and `WIDE1-1`. -/
theorem C18_target_is_AX25Addr_String_witness :
    recDial 64 ⟨45⟩ (mkURL "ax25" "W1AW" ["RELAY", "WIDE1-1"] []) =
      ((some (RecCall.DialAX25Timeout "port1".toList "N0CALL".toList
        (AX25Addr.String ⟨⟨⟨"W1AW".toList, 0⟩, [⟨"RELAY".toList, 0⟩, ⟨"WIDE1".toList, 1⟩]⟩⟩) 45),
        none), 1) :=
  (C18_target_is_AX25Addr_String (recDeps 64) ⟨45⟩
    (mkURL "ax25" "W1AW" ["RELAY", "WIDE1-1"] []) (0 : Nat) ⟨"W1AW".toList, 0⟩
    [⟨"RELAY".toList, 0⟩, ⟨"WIDE1".toList, 1⟩] (by decide) (by decide)).1 (by decide)

/-- C19: `AddressFromString` is total: the split of any text on the dash has
at least one part, so `parts[0]` is there and an address is returned; the
empty text gives the empty callsign with SSID 0, and so do `-` and `--`. -/
theorem C19_AddressFromString_total (s : Str) :
    1 ≤ (Split s '-').length ∧ (Split s '-')[0]? ≠ none ∧
      (AddressFromString s).isSome = true ∧
      AddressFromString "".toList = some ⟨"".toList, 0⟩ ∧
      AddressFromString "-".toList = some ⟨"".toList, 0⟩ ∧
      AddressFromString "--".toList = some ⟨"".toList, 0⟩ ∧
      AddressFromString "A-".toList = some ⟨"A".toList, 0⟩ ∧
      AddressFromString "A--7".toList = some ⟨"A".toList, 0⟩ := by
  refine ⟨?_, ?_, ?_, by decide, by decide, by decide, by decide, by decide⟩
  · rw [Split_eq]
    simp
  · rw [Split_eq]
    simp
  · rw [AddressFromString_eq]
    rfl

/-! ## The `via` keyword inside a rendering -/

theorem fmtD_no_blank (n : Nat) : ' ' ∉ fmtD n := by
  intro h
  obtain ⟨d, hd, e⟩ := fmtD_digits n _ h
  have := (digitChar_facts hd).2.2
  rw [← e] at this
  have h32 : (' ' : Char).toNat = 32 := by decide
  omega

/-- A rendering has a blank only where the callsign has one. -/
theorem String_no_blank (a : Address) (h : ' ' ∉ a.Call) : ' ' ∉ a.String := by
  unfold Address.String
  split
  · intro hm
    simp only [List.mem_append] at hm
    rcases hm with (hm | hm) | hm
    · exact h hm
    · revert hm
      decide
    · exact fmtD_no_blank _ hm
  · exact h

/-- A blank in front of a blank-free end lies in the text before that end. -/
theorem blank_before {y : Str} (hy : ' ' ∉ y) : ∀ (u x t : Str),
    u ++ ' ' :: t = x ++ y → ∃ t1, x = u ++ ' ' :: t1
  | [], [], t, h => by
    simp only [List.nil_append] at h
    exact absurd (h ▸ List.mem_cons_self _ _) hy
  | [], c :: x, t, h => by
    simp only [List.nil_append, List.cons_append, List.cons.injEq] at h
    exact ⟨x, by rw [h.1]; rfl⟩
  | c :: u, [], t, h => by
    simp only [List.nil_append] at h
    exact absurd (h ▸ (by simp : ' ' ∈ c :: u ++ ' ' :: t)) hy
  | c :: u, c1 :: x, t, h => by
    simp only [List.cons_append, List.cons.injEq] at h
    obtain ⟨t1, e⟩ := blank_before hy u x t h.2
    exact ⟨t1, by rw [h.1, e]; rfl⟩

/-- The keyword ` via ` lies in a text followed by a blank-free end exactly
when it lies in the text. -/
theorem via_infix_append (x : Str) {y : Str} (hy : ' ' ∉ y) :
    " via ".toList <:+: x ++ y ↔ " via ".toList <:+: x := by
  constructor
  · rintro ⟨u, t, h⟩
    have h1 : (u ++ " via".toList) ++ ' ' :: t = x ++ y := by
      rw [← h]
      simp
    obtain ⟨t1, e⟩ := blank_before hy _ _ _ h1
    exact ⟨u, t1, by rw [e]; simp⟩
  · intro h
    exact h.trans (List.infix_append [] x y)

/-- The first blank of a text that starts with a blank-free text. -/
theorem blank_split : ∀ {e : Str}, ' ' ∉ e → ∀ {x r K : Str}, x ++ ' ' :: r = e ++ ' ' :: K →
    (x = e ∧ r = K) ∨ ∃ x1, x = e ++ ' ' :: x1 ∧ x1 ++ ' ' :: r = K
  | [], _, [], r, K, h => by
    left
    simpa using h
  | [], _, c :: x, r, K, h => by
    right
    simp only [List.cons_append, List.nil_append, List.cons.injEq] at h
    exact ⟨x, by rw [h.1]; rfl, h.2⟩
  | c :: e, he, [], r, K, h => by
    simp only [List.nil_append, List.cons_append, List.cons.injEq] at h
    exact absurd (h.1 ▸ List.mem_cons_self _ _) he
  | c :: e, he, c1 :: x, r, K, h => by
    simp only [List.cons_append, List.cons.injEq] at h
    have he1 : ' ' ∉ e := fun m => he (List.mem_cons_of_mem _ m)
    rcases blank_split he1 h.2 with ⟨h1, h2⟩ | ⟨x1, h1, h2⟩
    · left
      exact ⟨by rw [h.1, h1], h2⟩
    · right
      exact ⟨x1, by rw [h.1, h1]; rfl, h2⟩

/-- A blank-free text other than `via`, at its end or before a blank, does not
start with `via` and a blank. -/
theorem not_via_start {d tail : Str} (hd : ' ' ∉ d) (hv : d ≠ "via".toList)
    (ht : tail = [] ∨ ∃ t, tail = ' ' :: t) : ¬ "via ".toList <+: d ++ tail := by
  have hlit : "via ".toList = ['v', 'i', 'a', ' '] := rfl
  have hlit2 : "via".toList = ['v', 'i', 'a'] := rfl
  rw [hlit]
  rw [hlit2] at hv
  rcases d with _ | ⟨c1, _ | ⟨c2, _ | ⟨c3, _ | ⟨c4, d4⟩⟩⟩⟩ <;>
    rcases ht with rfl | ⟨t, rfl⟩ <;>
    simp only [List.nil_append, List.cons_append, List.append_nil, List.cons_prefix_cons,
      List.prefix_nil, List.nil_prefix] <;>
    simp_all
  intro h1 h2 h3
  exact hv h1.symm h2.symm h3.symm

theorem intercalate_cons_cons (sep x y : Str) (ys : List Str) :
    sep.intercalate (x :: y :: ys) = x ++ sep ++ sep.intercalate (y :: ys) := by
  rw [intercalate_cons, intercalate_cons]
  simp

/-- A joined list is its first element, at the end or before a blank. -/
theorem intercalate_shape (d : Str) (ds : List Str) :
    ∃ tail, " ".toList.intercalate (d :: ds) = d ++ tail ∧
      (tail = [] ∨ ∃ t, tail = ' ' :: t) := by
  cases ds with
  | nil => exact ⟨[], by rw [intercalate_cons]; simp, Or.inl rfl⟩
  | cons y ys =>
    refine ⟨' ' :: " ".toList.intercalate (y :: ys), ?_, Or.inr ⟨_, rfl⟩⟩
    rw [intercalate_cons_cons]
    simp

/-- The keyword ` via ` is not in a joined list of blank-free texts none of
which, the first apart, is `via`. -/
theorem no_via_in_intercalate : ∀ (ds : List Str) (e : Str), ' ' ∉ e →
    (∀ d ∈ ds, ' ' ∉ d ∧ d ≠ "via".toList) →
    ¬ " via ".toList <:+: " ".toList.intercalate (e :: ds)
  | [], e, he, _ => by
    intro h
    rw [intercalate_cons] at h
    simp only [List.map_nil, List.flatten_nil, List.append_nil] at h
    exact he (h.subset (by decide))
  | d :: ds, e, he, hds => by
    rintro ⟨x, y, hxy⟩
    have hd := hds d (List.mem_cons_self _ _)
    have hrest : ∀ d1 ∈ ds, ' ' ∉ d1 ∧ d1 ≠ "via".toList :=
      fun d1 m => hds d1 (List.mem_cons_of_mem _ m)
    rw [intercalate_cons_cons] at hxy
    have h0 : x ++ ' ' :: ("via ".toList ++ y) = x ++ " via ".toList ++ y := by simp
    have h1 : x ++ ' ' :: ("via ".toList ++ y) = e ++ ' ' :: " ".toList.intercalate (d :: ds) := by
      rw [h0, hxy]
      simp
    rcases blank_split he h1 with ⟨-, h2⟩ | ⟨x1, -, h2⟩
    · obtain ⟨tail, etail, htail⟩ := intercalate_shape d ds
      rw [etail] at h2
      exact not_via_start hd.1 hd.2 htail ⟨y, h2⟩
    · exact no_via_in_intercalate ds d hd.1 hrest ⟨x1, y, by rw [← h2]; simp⟩

/-- C14 as stated fails: `AddressFromString` accepts the text `A via B` as a
callsign, and the address of that station without digipeaters is rendered
`A via B`, which contains ` via `. -/
theorem C14_counterexample :
    AddressFromString "A via B".toList = some ⟨"A via B".toList, 0⟩ ∧
      (AX25Addr.mk ⟨⟨"A via B".toList, 0⟩, []⟩).Digis = [] ∧
      (AX25Addr.mk ⟨⟨"A via B".toList, 0⟩, []⟩).String = "A via B".toList ∧
      " via ".toList <:+: (AX25Addr.mk ⟨⟨"A via B".toList, 0⟩, []⟩).String :=
  ⟨by decide, rfl, by decide, ⟨"A".toList, "B".toList, by decide⟩⟩

/-- C14, amended: without digipeaters, `AX25Addr.String` contains ` via `
exactly when the station's callsign contains it; so it contains none when
the callsign has none, in particular when the callsign has no blank. -/
theorem C14_via_without_digis (a : AX25Addr) (h : a.Digis = []) :
    (" via ".toList <:+: a.String ↔ " via ".toList <:+: a.Address.Call) ∧
      (¬ " via ".toList <:+: a.Address.Call → ¬ " via ".toList <:+: a.String) ∧
      (' ' ∉ a.Address.Call → ¬ " via ".toList <:+: a.String) := by
  have e : a.String = a.Address.String := by rw [AX25Addr_String_eq, if_pos h]
  have key : " via ".toList <:+: a.String ↔ " via ".toList <:+: a.Address.Call := by
    rw [e]
    unfold Address.String
    split
    · have hy : ' ' ∉ "-".toList ++ fmtD a.Address.SSID.val := by
        intro hm
        rcases List.mem_append.mp hm with hm | hm
        · revert hm
          decide
        · exact fmtD_no_blank _ hm
      rw [List.append_assoc]
      exact via_infix_append _ hy
    · exact Iff.rfl
  refine ⟨key, fun hn hc => hn (key.mp hc), fun hb hc => hb ((key.mp hc).subset (by decide))⟩

/-- C14 amended, at the station `N0CALL-7` without digipeaters. -/
theorem C14_via_without_digis_witness :
    ¬ " via ".toList <:+: (AX25Addr.mk ⟨⟨"N0CALL".toList, 7⟩, []⟩).String :=
  (C14_via_without_digis (AX25Addr.mk ⟨⟨"N0CALL".toList, 7⟩, []⟩) rfl).2.2 (by decide)

/-- C15 as stated fails: the station with callsign `A via B` and the one
digipeater `C` are rendered `A via B via C`, where ` via ` occurs twice, and
what follows the first occurrence is `B via C`, not the digipeater. -/
theorem C15_counterexample :
    AddressFromString "A via B".toList = some ⟨"A via B".toList, 0⟩ ∧
      (AX25Addr.mk ⟨⟨"A via B".toList, 0⟩, [⟨"C".toList, 0⟩]⟩).String =
        "A".toList ++ " via ".toList ++ "B via C".toList ∧
      (AX25Addr.mk ⟨⟨"A via B".toList, 0⟩, [⟨"C".toList, 0⟩]⟩).String =
        "A via B".toList ++ " via ".toList ++ "C".toList ∧
      ¬ OccursOnceBetween " via ".toList
        (AX25Addr.mk ⟨⟨"A via B".toList, 0⟩, [⟨"C".toList, 0⟩]⟩).String
        "A via B".toList "C".toList := by
  refine ⟨by decide, by decide, by decide, ?_⟩
  intro h
  have h1 := (h.2 "A".toList "B via C".toList (by decide)).1
  revert h1
  decide

/-- C15, amended: when there is a digipeater, no callsign (station or
digipeater) has a blank and no digipeater is rendered `via`,
`AX25Addr.String` contains ` via ` exactly once, after the station's
canonical form, and what follows it is the canonical forms of the
digipeaters in the given order with one blank between each two. -/
theorem C15_one_via_with_digis (a : AX25Addr) (hn : 1 ≤ a.Digis.length)
    (hst : ' ' ∉ a.Address.Call)
    (hds : ∀ d ∈ a.Digis, ' ' ∉ d.Call ∧ d.String ≠ "via".toList) :
    OccursOnceBetween " via ".toList a.String a.Address.String
      (" ".toList.intercalate (a.Digis.map Address.String)) := by
  have hne : a.Digis ≠ [] := by
    intro h0
    rw [h0] at hn
    exact absurd hn (by decide)
  have e : a.String = a.Address.String ++ " via ".toList ++
      " ".toList.intercalate (a.Digis.map Address.String) := by
    rw [AX25Addr_String_eq, if_neg hne]
  refine ⟨e, ?_⟩
  intro x1 y1 h1
  have hF := String_no_blank a.Address hst
  have hG : ∀ g ∈ a.Digis.map Address.String, ' ' ∉ g ∧ g ≠ "via".toList := by
    intro g hg
    obtain ⟨d, hd, rfl⟩ := List.mem_map.mp hg
    exact ⟨String_no_blank d (hds d hd).1, (hds d hd).2⟩
  have h2 : x1 ++ ' ' :: ("via ".toList ++ y1) =
      a.Address.String ++ ' ' ::
        ("via ".toList ++ " ".toList.intercalate (a.Digis.map Address.String)) := by
    have l : x1 ++ ' ' :: ("via ".toList ++ y1) = x1 ++ " via ".toList ++ y1 := by simp
    rw [l, ← h1, e]
    simp
  rcases blank_split hF h2 with ⟨hx, hy⟩ | ⟨x2, -, hy⟩
  · exact ⟨hx, List.append_cancel_left hy⟩
  · exfalso
    obtain ⟨g, gs, hg⟩ := List.exists_cons_of_ne_nil
      (fun h0 => hne (List.map_eq_nil_iff.mp h0) : a.Digis.map Address.String ≠ [])
    rw [hg] at hy hG
    apply no_via_in_intercalate (g :: gs) "via".toList (by decide) hG
    rw [intercalate_cons_cons]
    exact ⟨x2, y1, by
      have l : x2 ++ " via ".toList ++ y1 = x2 ++ ' ' :: ("via ".toList ++ y1) := by simp
      rw [l, hy]
      simp⟩

/-- C15 amended, at the station `W1AW` with the digipeaters `RELAY` and
`WIDE1-1`. -/
theorem C15_one_via_with_digis_witness :
    OccursOnceBetween " via ".toList "W1AW via RELAY WIDE1-1".toList "W1AW".toList
      "RELAY WIDE1-1".toList :=
  C15_one_via_with_digis
    (AX25Addr.mk ⟨⟨"W1AW".toList, 0⟩, [⟨"RELAY".toList, 0⟩, ⟨"WIDE1".toList, 1⟩]⟩)
    (by decide) (by decide) (by decide)

end ax25
